import Mathlib

/-!
Verification development for the img2cluster stippling tool.

The embedding below translates `src/renderer/utils.ts` and the stippling
core of `src/renderer/App.tsx` (the `processImage` / `processChunk`
routine) into Lean.  Numbers that the source manipulates as JS floats are
modelled as rationals; the per-point random jitter is modelled as an
explicit function from grid coordinates to an offset pair, so that a run
is a pure function of its inputs and the jitter tape.
-/

/-- Embedding of `getGrayscaleValue` from `src/renderer/utils.ts` lines 1-9:
luminance `0.299*r + 0.587*g + 0.114*b`, returning 255 when it exceeds the
threshold parameter `alpla` (the misspelt first parameter, reusing the
alpha slot) and 0 otherwise. -/
def getGrayscaleValue (alpla r g b : ℚ) : ℚ :=
  let grayscale := 299 / 1000 * r + 587 / 1000 * g + 114 / 1000 * b
  if grayscale > alpla then 255 else 0

/-- The inputs captured by one run of `processImage` (App.tsx lines 82-182):
the decoded RGBA byte array, the fitted draw rectangle, the configuration
sliders, the placement offsets, the viewport height used for the Y flip,
the export scale divisor, the per-point jitter tape (modelling
`randomRadius * cos/sin(randomAngle)` at lines 143-149), and the optional
export destination. -/
structure RenderInput where
  data : ℕ → ℕ
  drawWidth : ℕ
  drawHeight : ℕ
  spacing : ℕ
  alpha : ℚ
  inversive : Bool
  offsetX : ℚ
  offsetY : ℚ
  height : ℚ
  scaleFactor : ℚ
  jitter : ℕ → ℕ → ℚ × ℚ
  filePath : Option String

/-- Fuel-indexed embedding of the JS counting loop
`for (let y = start; y < stop; y += step)`.  One unit of fuel is spent per
iteration; since every iteration advances `y` by `step ≥ 1`, fuel
`stop - start` is always sufficient. -/
def loopValsAux (step stop : ℕ) : ℕ → ℕ → List ℕ
  | 0, _ => []
  | fuel + 1, y => if y < stop then y :: loopValsAux step stop fuel (y + step) else []

/-- The values visited by `for (let y = start; y < stop; y += step)`. -/
def loopVals (step stop start : ℕ) : List ℕ :=
  loopValsAux step stop (stop - start) start

/-- `Math.ceil(drawHeight / chunkSize)` with `chunkSize = 100`
(App.tsx lines 121-122). -/
def totalChunks (p : RenderInput) : ℕ :=
  (p.drawHeight + 99) / 100

/-- The grid rows visited by band `chunkIndex`: `startY = chunkIndex * 100`,
`endY = min(startY + 100, drawHeight)`, stepping by `spacing`
(App.tsx lines 125-129). -/
def bandRows (p : RenderInput) (chunkIndex : ℕ) : List ℕ :=
  loopVals p.spacing (min (chunkIndex * 100 + 100) p.drawHeight) (chunkIndex * 100)

/-- The grid columns visited by the inner loop
`for (let x = 0; x < drawWidth; x += spacing)` (App.tsx line 130). -/
def colVals (p : RenderInput) : List ℕ :=
  loopVals p.spacing p.drawWidth 0

/-- The classifier output at grid point `(x, y)`:
`i = (y * drawWidth + x) * 4` and
`getGrayscaleValue(alpha, data[i], data[i+1], data[i+2])`
(App.tsx lines 131-137). -/
def grayAt (p : RenderInput) (x y : ℕ) : ℚ :=
  getGrayscaleValue p.alpha (p.data ((y * p.drawWidth + x) * 4))
    (p.data ((y * p.drawWidth + x) * 4 + 1)) (p.data ((y * p.drawWidth + x) * 4 + 2))

/-- The accept test of App.tsx lines 138-141:
`(grayscale > 240 && !inversive) || (grayscale <= 240 && inversive)`. -/
def pointAccept (p : RenderInput) (x y : ℕ) : Bool :=
  (decide (grayAt p x y > 240) && !p.inversive) ||
    (decide (grayAt p x y ≤ 240) && p.inversive)

/-- Claim C1: for every grid sample the engine accepts the point iff the
classifier output exceeds 240 and inversion is off, or the output is at
most 240 and inversion is on; the classifier threshold (inside
`getGrayscaleValue`) and the fixed 240 cutoff are both applied. -/
theorem c1_accept_rule (p : RenderInput) (x y : ℕ) :
    pointAccept p x y = true ↔
      (grayAt p x y > 240 ∧ p.inversive = false) ∨
        (grayAt p x y ≤ 240 ∧ p.inversive = true) := by
  cases hp : p.inversive <;> simp [pointAccept, hp]

/-- Claim C3: the grayscale classifier is a pure total function on ℚ whose
output is in the set consisting of 0 and 255, and the output is 255 exactly
when `0.299*r + 0.587*g + 0.114*b` strictly exceeds the threshold; no range
validation is performed, the same formula applies to every rational input. -/
theorem c3_classifier (alpla r g b : ℚ) :
    (getGrayscaleValue alpla r g b = 0 ∨ getGrayscaleValue alpla r g b = 255) ∧
      (getGrayscaleValue alpla r g b = 255 ↔
        299 / 1000 * r + 587 / 1000 * g + 114 / 1000 * b > alpla) := by
  dsimp only [getGrayscaleValue]
  split_ifs with h
  · exact ⟨Or.inr rfl, by simpa using h⟩
  · refine ⟨Or.inl rfl, ?_⟩
    constructor
    · intro h0
      exact absurd h0 (by norm_num)
    · intro h0
      exact absurd h0 h

theorem loopValsAux_bounds {step stop : ℕ} :
    ∀ {fuel y z : ℕ}, z ∈ loopValsAux step stop fuel y → y ≤ z ∧ z < stop := by
  intro fuel
  induction fuel with
  | zero =>
    intro y z h
    simp [loopValsAux] at h
  | succ n ih =>
    intro y z h
    by_cases hy : y < stop
    · rw [loopValsAux, if_pos hy] at h
      rcases List.mem_cons.mp h with rfl | h2
      · exact ⟨Nat.le_refl _, hy⟩
      · have h3 := ih h2
        exact ⟨Nat.le_trans (Nat.le_add_right _ _) h3.1, h3.2⟩
    · rw [loopValsAux, if_neg hy] at h
      simp at h

theorem mem_loopValsAux {step stop : ℕ} (hs : 0 < step) :
    ∀ (fuel y z : ℕ), stop - y ≤ fuel →
      (z ∈ loopValsAux step stop fuel y ↔ y ≤ z ∧ z < stop ∧ step ∣ (z - y)) := by
  intro fuel
  induction fuel with
  | zero =>
    intro y z hfuel
    simp only [loopValsAux, List.not_mem_nil, false_iff]
    rintro ⟨h1, h2, -⟩
    omega
  | succ n ih =>
    intro y z hfuel
    by_cases hy : y < stop
    · rw [loopValsAux, if_pos hy, List.mem_cons, ih (y + step) z (by omega)]
      constructor
      · rintro (rfl | ⟨h1, h2, h3⟩)
        · exact ⟨Nat.le_refl _, hy, by simp⟩
        · refine ⟨by omega, h2, ?_⟩
          have hz : z - y = (z - (y + step)) + step := by omega
          rw [hz]
          exact dvd_add h3 (dvd_refl step)
      · rintro ⟨h1, h2, h3⟩
        by_cases hz : z = y
        · exact Or.inl hz
        · right
          have hpos : 0 < z - y := by omega
          have hge : step ≤ z - y := Nat.le_of_dvd hpos h3
          refine ⟨by omega, h2, ?_⟩
          have hz2 : z - (y + step) = (z - y) - step := by omega
          rw [hz2]
          exact Nat.dvd_sub' h3 (dvd_refl step)
    · rw [loopValsAux, if_neg hy]
      simp only [List.not_mem_nil, false_iff]
      rintro ⟨h1, h2, -⟩
      omega

theorem mem_loopVals {step stop start z : ℕ} (hs : 0 < step) :
    z ∈ loopVals step stop start ↔ start ≤ z ∧ z < stop ∧ step ∣ (z - start) :=
  mem_loopValsAux hs _ start z (Nat.le_refl _)

theorem loopValsAux_sorted {step stop : ℕ} (hs : 0 < step) :
    ∀ (fuel y : ℕ), List.Sorted (· < ·) (loopValsAux step stop fuel y) := by
  intro fuel
  induction fuel with
  | zero =>
    intro y
    simp [loopValsAux]
  | succ n ih =>
    intro y
    by_cases hy : y < stop
    · rw [loopValsAux, if_pos hy]
      rw [List.sorted_cons]
      refine ⟨?_, ih (y + step)⟩
      intro b hb
      have := loopValsAux_bounds hb
      omega
    · rw [loopValsAux, if_neg hy]
      simp

/-- JS `Math.round`: round half towards positive infinity,
i.e. `⌊q + 1/2⌋`. -/
def jsRound (q : ℚ) : ℤ :=
  ⌊q + 1 / 2⌋

/-- Rendering of an integer number of hundredths with two decimal places
and a comma as decimal separator: the text produced by
`String(v.toFixed(2)).replace(".", ",")` for `v = n / 100`
(App.tsx line 161). -/
def format2dec (n : ℤ) : String :=
  (if n < 0 then ("-") else ("")) ++ toString (n.natAbs / 100) ++ (",") ++
    (if n.natAbs % 100 < 10 then ("0") else ("")) ++ toString (n.natAbs % 100)

/-- `v.toFixed(2)` with the dot replaced by a comma, for a value that is an
exact multiple of 1/100: scale to hundredths, round, render. -/
def formatFixed2 (q : ℚ) : String :=
  format2dec (jsRound (q * 100))

/-- `canvasX = offsetX + x + randomRadius * Math.cos(randomAngle)`
(App.tsx lines 146-147), with the jitter tape supplying the random term. -/
def canvasXAt (p : RenderInput) (x y : ℕ) : ℚ :=
  p.offsetX + x + (p.jitter x y).1

/-- `canvasY = offsetY + y + randomRadius * Math.sin(randomAngle)`
(App.tsx lines 148-149). -/
def canvasYAt (p : RenderInput) (x y : ℕ) : ℚ :=
  p.offsetY + y + (p.jitter x y).2

/-- `scaledX = Math.round((canvasX / scaleFactor) * 100) / 100`
(App.tsx line 151). -/
def scaledXAt (p : RenderInput) (x y : ℕ) : ℚ :=
  (jsRound (canvasXAt p x y / p.scaleFactor * 100) : ℚ) / 100

/-- `scaledY = Math.round(((height - canvasY) / scaleFactor) * 100) / 100`
(App.tsx lines 152-153). -/
def scaledYAt (p : RenderInput) (x y : ℕ) : ℚ :=
  (jsRound ((p.height - canvasYAt p x y) / p.scaleFactor * 100) : ℚ) / 100

/-- The exported line pushed at App.tsx lines 160-162: the two scaled
coordinates rendered with `toFixed(2)`, dot replaced by comma, joined by a
single space. -/
def lineOf (p : RenderInput) (x y : ℕ) : String :=
  formatFixed2 (scaledXAt p x y) ++ (" ") ++ formatFixed2 (scaledYAt p x y)

/-- The lines that grid row `y` contributes to `positions`, in column
order (inner loop of App.tsx lines 130-164). -/
def rowLines (p : RenderInput) (y : ℕ) : List String :=
  (colVals p).flatMap fun x => if pointAccept p x y then [lineOf p x y] else []

/-- The `positions` array accumulated by `processChunk(chunkIndex)`
(App.tsx lines 127-165): band rows in order, columns within each row. -/
def positions (p : RenderInput) (chunkIndex : ℕ) : List String :=
  (bandRows p chunkIndex).flatMap (rowLines p)

/-- The accepted grid coordinates (pre-jitter) of one band, in the same
iteration order as `positions`. -/
def bandAccepted (p : RenderInput) (chunkIndex : ℕ) : List (ℕ × ℕ) :=
  (bandRows p chunkIndex).flatMap fun y =>
    (colVals p).flatMap fun x => if pointAccept p x y then [(x, y)] else []

/-- The chunk text sent for one band: `` `${positions.join('\n')}\n` ``
(App.tsx line 170). -/
def chunkOf (p : RenderInput) (chunkIndex : ℕ) : String :=
  String.intercalate ("\n") (positions p chunkIndex) ++ ("\n")

/-- Fuel-indexed embedding of the `processChunk` recursion
(App.tsx lines 124-179): emit the chunk for `chunkIndex`, then continue
with `chunkIndex + 1` while `chunkIndex < totalChunks - 1`. -/
def runFromAux (p : RenderInput) : ℕ → ℕ → List String
  | 0, _ => []
  | fuel + 1, chunkIndex =>
    chunkOf p chunkIndex ::
      (if chunkIndex < totalChunks p - 1 then runFromAux p fuel (chunkIndex + 1) else [])

/-- The chunk sequence produced by `processChunk(0)` (App.tsx line 179).
`totalChunks + 1` units of fuel cover every run, including the degenerate
`totalChunks = 0` case in which the JS code still emits one chunk. -/
def runChunks (p : RenderInput) : List String :=
  runFromAux p (totalChunks p + 1) 0

/-- The chunks sent to the export sink: one `save-chunk` message per band
when a `filePath` is active (App.tsx lines 167-172), nothing otherwise. -/
def emittedChunks (p : RenderInput) : List String :=
  match p.filePath with
  | some _ => runChunks p
  | none => []

/-- All grid rows sampled by a run, every band in emission order. -/
def sampledRowsOf (p : RenderInput) : List ℕ :=
  (List.range (totalChunks p)).flatMap (bandRows p)

/-- The export-line formula in the spec's words (section 4.3): horizontal
`drawX / scaleFactor` and vertical `(viewportHeight - drawY) / scaleFactor`,
each rounded to 2 decimal places with a comma separator, joined by one
space. -/
def specLine (scaleFactor height drawX drawY : ℚ) : String :=
  format2dec (jsRound (drawX / scaleFactor * 100)) ++ (" ") ++
    format2dec (jsRound ((height - drawY) / scaleFactor * 100))

theorem jsRound_hundredths (n : ℤ) : jsRound ((n : ℚ) / 100 * 100) = n := by
  have h : ((n : ℚ)) / 100 * 100 = (n : ℚ) := div_mul_cancel₀ _ (by norm_num)
  unfold jsRound
  rw [h, Int.floor_int_add]
  norm_num

theorem lineOf_eq_specLine (p : RenderInput) (x y : ℕ) :
    lineOf p x y = specLine p.scaleFactor p.height (canvasXAt p x y) (canvasYAt p x y) := by
  unfold lineOf specLine formatFixed2 scaledXAt scaledYAt
  rw [jsRound_hundredths, jsRound_hundredths]

theorem positions_eq_map (p : RenderInput) (k : ℕ) :
    positions p k = (bandAccepted p k).map (fun q => lineOf p q.1 q.2) := by
  unfold positions bandAccepted rowLines
  simp only [List.map_flatMap, apply_ite, List.map_cons, List.map_nil]

theorem mem_bandRows (p : RenderInput) (hs : 0 < p.spacing) (k y : ℕ) :
    y ∈ bandRows p k ↔
      k * 100 ≤ y ∧ y < min (k * 100 + 100) p.drawHeight ∧ p.spacing ∣ (y - k * 100) := by
  unfold bandRows
  exact mem_loopVals hs

theorem mem_colVals (p : RenderInput) (hs : 0 < p.spacing) (x : ℕ) :
    x ∈ colVals p ↔ x < p.drawWidth ∧ p.spacing ∣ x := by
  unfold colVals
  rw [mem_loopVals hs]
  simp

theorem mem_sampledRowsOf (p : RenderInput) (hs : 0 < p.spacing) (y : ℕ) :
    y ∈ sampledRowsOf p ↔ y < p.drawHeight ∧ p.spacing ∣ y % 100 := by
  unfold sampledRowsOf
  rw [List.mem_flatMap]
  constructor
  · rintro ⟨k, hk, hy⟩
    rw [mem_bandRows p hs] at hy
    obtain ⟨h1, h2, h3⟩ := hy
    have hk100 : y % 100 = y - k * 100 := by omega
    refine ⟨by omega, ?_⟩
    rw [hk100]
    exact h3
  · rintro ⟨h1, h2⟩
    refine ⟨y / 100, ?_, ?_⟩
    · rw [List.mem_range]
      unfold totalChunks
      omega
    · rw [mem_bandRows p hs]
      refine ⟨by omega, by omega, ?_⟩
      have hy : y - y / 100 * 100 = y % 100 := by omega
      rw [hy]
      exact h2

theorem sampledRows_sorted_aux (p : RenderInput) (hs : 0 < p.spacing) :
    ∀ n : ℕ, List.Sorted (· < ·) ((List.range n).flatMap (bandRows p)) := by
  intro n
  induction n with
  | zero => simp
  | succ m ih =>
    rw [List.range_succ, List.flatMap_append, List.flatMap_singleton]
    rw [List.Sorted, List.pairwise_append]
    refine ⟨ih, loopValsAux_sorted hs _ _, ?_⟩
    intro a ha b hb
    rcases List.mem_flatMap.mp ha with ⟨k, hk, hak⟩
    have h1 := loopValsAux_bounds hak
    have h2 := loopValsAux_bounds hb
    have hk2 : k < m := List.mem_range.mp hk
    omega

theorem sampledRowsOf_sorted (p : RenderInput) (hs : 0 < p.spacing) :
    List.Sorted (· < ·) (sampledRowsOf p) :=
  sampledRows_sorted_aux p hs (totalChunks p)

theorem runFromAux_eq (p : RenderInput) :
    ∀ (fuel k : ℕ), k < totalChunks p → totalChunks p - k ≤ fuel →
      runFromAux p fuel k = (List.range' k (totalChunks p - k)).map (chunkOf p) := by
  intro fuel
  induction fuel with
  | zero =>
    intro k h1 h2
    omega
  | succ n ih =>
    intro k h1 h2
    by_cases h : k < totalChunks p - 1
    · rw [runFromAux, if_pos h, ih (k + 1) (by omega) (by omega)]
      have ht : totalChunks p - k = (totalChunks p - (k + 1)) + 1 := by omega
      rw [ht, List.range'_succ]
      simp
    · rw [runFromAux, if_neg h]
      have hk : totalChunks p - k = 1 := by omega
      rw [hk, List.range'_one]
      simp

theorem runChunks_eq (p : RenderInput) (hd : 0 < p.drawHeight) :
    runChunks p = (List.range (totalChunks p)).map (chunkOf p) := by
  have h1 : 0 < totalChunks p := by
    unfold totalChunks
    omega
  unfold runChunks
  rw [runFromAux_eq p (totalChunks p + 1) 0 h1 (by omega), List.range_eq_range']
  simp

theorem totalChunks_eq_ceil (p : RenderInput) :
    (totalChunks p : ℤ) = ⌈(p.drawHeight : ℚ) / 100⌉ := by
  have hlo : p.drawHeight ≤ totalChunks p * 100 := by
    unfold totalChunks
    omega
  have hhi : totalChunks p * 100 < p.drawHeight + 100 := by
    unfold totalChunks
    omega
  symm
  rw [Int.ceil_eq_iff]
  constructor
  · rw [lt_div_iff₀ (by norm_num : (0 : ℚ) < 100)]
    have hhi2 : ((totalChunks p : ℚ)) * 100 < (p.drawHeight : ℚ) + 100 := by
      exact_mod_cast hhi
    push_cast
    linarith
  · rw [div_le_iff₀ (by norm_num : (0 : ℚ) < 100)]
    have hlo2 : ((p.drawHeight : ℚ)) ≤ (totalChunks p : ℚ) * 100 := by
      exact_mod_cast hlo
    push_cast
    linarith


/-- Claim C8: for every grid point (in particular every accepted one) the
exported line equals the spec formula: `drawX / scaleFactor` horizontally
and `(viewportHeight - drawY) / scaleFactor` vertically (Y flipped to a
bottom-left origin), both rounded to 2 decimals with a comma separator and
joined by a single space; and the band's emitted lines are exactly that
formula applied to each accepted point's jittered draw position. -/
theorem c8_export_line (p : RenderInput) (x y k : ℕ) :
    lineOf p x y =
      specLine p.scaleFactor p.height (canvasXAt p x y) (canvasYAt p x y) ∧
    positions p k =
      (bandAccepted p k).map
        (fun q => specLine p.scaleFactor p.height (canvasXAt p q.1 q.2) (canvasYAt p q.1 q.2)) := by
  refine ⟨lineOf_eq_specLine p x y, ?_⟩
  rw [positions_eq_map]
  simp only [lineOf_eq_specLine]

/-- Claim C9: the accepted pre-jitter grid coordinates of a band are the
same list (same set, same number, same order) no matter which jitter tape
the run draws, and the jitter influences only the drawn and exported
position of each accepted point (the emitted lines are `lineOf` mapped over
that jitter-independent accepted list), never acceptance itself. -/
theorem c9_jitter_determinism (p : RenderInput) (j1 j2 : ℕ → ℕ → ℚ × ℚ) (k x y : ℕ) :
    bandAccepted { p with jitter := j1 } k = bandAccepted { p with jitter := j2 } k ∧
    pointAccept { p with jitter := j1 } x y = pointAccept { p with jitter := j2 } x y ∧
    positions { p with jitter := j1 } k =
      (bandAccepted { p with jitter := j2 } k).map
        (fun q => lineOf { p with jitter := j1 } q.1 q.2) :=
  ⟨rfl, rfl, positions_eq_map _ _⟩

/-- A 10x10 all-black RGBA bitmap rendered into a 10x10 viewport with
threshold 128, spacing 10, no inversion, scale factor 1, zero jitter and an
active export destination: the concrete input of the spec's first worked
example. -/
def blackInput : RenderInput where
  data := fun _ => 0
  drawWidth := 10
  drawHeight := 10
  spacing := 10
  alpha := 128
  inversive := false
  offsetX := 0
  offsetY := 0
  height := 10
  scaleFactor := 1
  jitter := fun _ _ => (0, 0)
  filePath := some ("out")

/-- The same configuration over an all-white bitmap (every RGBA byte 255):
the concrete input of the spec's second worked example. -/
def whiteInput : RenderInput :=
  { blackInput with data := fun _ => 255 }

theorem pointAccept_black : pointAccept blackInput 0 0 = false := by
  have h : grayAt blackInput 0 0 = 0 := by
    norm_num [grayAt, getGrayscaleValue, blackInput]
  have h1 : decide (grayAt blackInput 0 0 > 240) = false := by
    rw [h]
    exact decide_eq_false (by norm_num)
  unfold pointAccept
  rw [h1]
  have h2 : blackInput.inversive = false := rfl
  rw [h2]
  simp

theorem pointAccept_white : pointAccept whiteInput 0 0 = true := by
  have h : grayAt whiteInput 0 0 = 255 := by
    norm_num [grayAt, getGrayscaleValue, whiteInput, blackInput]
  have h1 : decide (grayAt whiteInput 0 0 > 240) = true := by
    rw [h]
    exact decide_eq_true (by norm_num)
  unfold pointAccept
  rw [h1]
  have h2 : whiteInput.inversive = false := rfl
  rw [h2]
  simp

theorem lineOf_white : lineOf whiteInput 0 0 = ("0,00 10,00") := by
  rw [lineOf_eq_specLine]
  have h1 : canvasXAt whiteInput 0 0 = 0 := by
    norm_num [canvasXAt, whiteInput, blackInput]
  have h2 : canvasYAt whiteInput 0 0 = 0 := by
    norm_num [canvasYAt, whiteInput, blackInput]
  have hsf : whiteInput.scaleFactor = 1 := rfl
  have hh : whiteInput.height = 10 := rfl
  rw [h1, h2, hsf, hh]
  unfold specLine
  have h3 : jsRound ((0 : ℚ) / 1 * 100) = 0 := by
    norm_num [jsRound]
  have h4 : jsRound (((10 : ℚ) - 0) / 1 * 100) = 1000 := by
    norm_num [jsRound]
  rw [h3, h4]
  decide

theorem positions_black0 : positions blackInput 0 = [] := by
  have hrows : bandRows blackInput 0 = [0] := by decide
  have hcols : colVals blackInput = [0] := by decide
  unfold positions rowLines
  rw [hrows, hcols]
  simp [pointAccept_black]

theorem positions_white0 : positions whiteInput 0 = [("0,00 10,00")] := by
  have hrows : bandRows whiteInput 0 = [0] := by decide
  have hcols : colVals whiteInput = [0] := by decide
  unfold positions rowLines
  rw [hrows, hcols]
  simp [pointAccept_white, lineOf_white]

theorem emitted_black : emittedChunks blackInput = [("\n")] := by
  have h1 : emittedChunks blackInput = [chunkOf blackInput 0] := rfl
  rw [h1]
  have h2 : chunkOf blackInput 0 = ("\n") := by
    unfold chunkOf
    rw [positions_black0]
    rfl
  rw [h2]

theorem emitted_white : emittedChunks whiteInput = [("0,00 10,00\n")] := by
  have h1 : emittedChunks whiteInput = [chunkOf whiteInput 0] := rfl
  rw [h1]
  have h2 : chunkOf whiteInput 0 = ("0,00 10,00\n") := by
    unfold chunkOf
    rw [positions_white0]
    rfl
  rw [h2]

/-- Claim C2 counterexample: on the 10x10 solid black image with threshold
128, spacing 10, inverted=false, viewport 10x10, scaleFactor 1, the single
grid point (0,0) is REJECTED (the run emits one empty chunk, not the line
"0,00 10,00"), and on the all-white image the point is ACCEPTED - the
opposite of both acceptance assertions of the claim. -/
theorem c2_counterexample :
    pointAccept blackInput 0 0 = false ∧
      emittedChunks blackInput ≠ [("0,00 10,00\n")] ∧
      pointAccept whiteInput 0 0 = true := by
  refine ⟨pointAccept_black, ?_, pointAccept_white⟩
  rw [emitted_black]
  decide

/-- Claim C2 amended: with the accept rule the code actually implements,
the two worked examples swap roles. The solid black 10x10 image (classifier
output 0, inverted=false) rejects its single grid point and the run emits
one empty chunk (a single newline); the all-white image (classifier output
255, inverted=false) accepts the single grid point at (0,0) and the run
emits exactly one chunk with the one line "0,00 10,00" (zero jitter),
whose value matches scaleFactor 1 and the vertical flip of y=0 to 10. -/
theorem c2_amended :
    pointAccept blackInput 0 0 = false ∧
      emittedChunks blackInput = [("\n")] ∧
      pointAccept whiteInput 0 0 = true ∧
      emittedChunks whiteInput = [("0,00 10,00\n")] :=
  ⟨pointAccept_black, emitted_black, pointAccept_white, emitted_white⟩

/-- A taller render: 1-column wide, 200 rows high, spacing 8 (the UI
default), exercising two 100-pixel bands. -/
def gridInput : RenderInput :=
  { blackInput with
      drawWidth := 1
      drawHeight := 200
      spacing := 8
      height := 200
      filePath := none }

/-- Claim C4 counterexample: with drawHeight 200 and spacing 8 the sampled
rows are NOT the single lattice of multiples of 8 below 200: row 104 is a
multiple of the spacing below drawHeight yet is never sampled, while row
100 is sampled although it is not a multiple of the spacing - the banding
into 100-pixel chunks resets the row phase. -/
theorem c4_counterexample :
    (104 < gridInput.drawHeight ∧ gridInput.spacing ∣ 104 ∧
        104 ∉ sampledRowsOf gridInput) ∧
      (100 ∈ sampledRowsOf gridInput ∧ ¬ gridInput.spacing ∣ 100) := by
  decide

/-- Claim C4 amended: the sampled columns are exactly the multiples of
spacing below drawWidth, but the sampled rows form a per-band lattice that
restarts at every 100-pixel band boundary: row y is sampled iff
y < drawHeight and spacing divides y mod 100.  The rows coincide with the
single uniform lattice of the original claim exactly when spacing divides
the band height 100. -/
theorem c4_amended (p : RenderInput) (x y : ℕ) (hs : 0 < p.spacing) :
    (y ∈ sampledRowsOf p ↔ y < p.drawHeight ∧ p.spacing ∣ y % 100) ∧
      (x ∈ colVals p ↔ x < p.drawWidth ∧ p.spacing ∣ x) ∧
      (p.spacing ∣ 100 →
        (y ∈ sampledRowsOf p ↔ y < p.drawHeight ∧ p.spacing ∣ y)) := by
  refine ⟨mem_sampledRowsOf p hs y, mem_colVals p hs x, ?_⟩
  intro hdvd
  rw [mem_sampledRowsOf p hs y]
  constructor
  · rintro ⟨h1, h2⟩
    exact ⟨h1, (Nat.dvd_mod_iff hdvd).mp h2⟩
  · rintro ⟨h1, h2⟩
    exact ⟨h1, (Nat.dvd_mod_iff hdvd).mpr h2⟩

/-- Witness for the amended C4 at the concrete two-band input. -/
theorem c4_amended_witness :
    ((104 ∈ sampledRowsOf gridInput ↔
        104 < gridInput.drawHeight ∧ gridInput.spacing ∣ 104 % 100) ∧
      (0 ∈ colVals gridInput ↔ 0 < gridInput.drawWidth ∧ gridInput.spacing ∣ 0) ∧
      (gridInput.spacing ∣ 100 →
        (104 ∈ sampledRowsOf gridInput ↔
          104 < gridInput.drawHeight ∧ gridInput.spacing ∣ 104))) :=
  c4_amended gridInput 0 104 (by decide)

/-- Claim C5: with an active export destination the run emits exactly
ceil(drawHeight/100) chunks, one per band in band order; each chunk is the
band's accepted-point lines joined by newline with a trailing newline (so
an empty band emits a single newline); a band's rows are exactly the grid
rows in the band's row range (stepping by spacing from the band start);
and the concatenation of every band's lines is the accepted-point list
over all sampled rows in increasing row order, columns within each row. -/
theorem c5_chunk_stream (p : RenderInput) (fp : String) (k y : ℕ)
    (hfp : p.filePath = some fp) (hs : 0 < p.spacing) (hd : 0 < p.drawHeight) :
    ((emittedChunks p).length : ℤ) = ⌈(p.drawHeight : ℚ) / 100⌉ ∧
      emittedChunks p = (List.range (totalChunks p)).map (chunkOf p) ∧
      chunkOf p k = String.intercalate ("\n") (positions p k) ++ ("\n") ∧
      (positions p k = [] → chunkOf p k = ("\n")) ∧
      (y ∈ bandRows p k ↔
        k * 100 ≤ y ∧ y < min (k * 100 + 100) p.drawHeight ∧
          p.spacing ∣ (y - k * 100)) ∧
      (List.range (totalChunks p)).flatMap (positions p) =
        (sampledRowsOf p).flatMap (rowLines p) ∧
      List.Sorted (· < ·) (sampledRowsOf p) := by
  have hemit : emittedChunks p = runChunks p := by
    unfold emittedChunks
    rw [hfp]
  refine ⟨?_, ?_, rfl, ?_, mem_bandRows p hs k y, ?_, sampledRowsOf_sorted p hs⟩
  · rw [hemit, runChunks_eq p hd, List.length_map, List.length_range,
      totalChunks_eq_ceil]
  · rw [hemit]
    exact runChunks_eq p hd
  · intro h0
    unfold chunkOf
    rw [h0]
    rfl
  · unfold sampledRowsOf positions
    exact (List.flatMap_assoc _ _ _).symm

/-- Witness for C5 at the all-white 10x10 export run. -/
theorem c5_chunk_stream_witness :
    ((emittedChunks whiteInput).length : ℤ) = ⌈(whiteInput.drawHeight : ℚ) / 100⌉ ∧
      emittedChunks whiteInput =
        (List.range (totalChunks whiteInput)).map (chunkOf whiteInput) ∧
      chunkOf whiteInput 0 =
        String.intercalate ("\n") (positions whiteInput 0) ++ ("\n") ∧
      (positions whiteInput 0 = [] → chunkOf whiteInput 0 = ("\n")) ∧
      (0 ∈ bandRows whiteInput 0 ↔
        0 * 100 ≤ 0 ∧ 0 < min (0 * 100 + 100) whiteInput.drawHeight ∧
          whiteInput.spacing ∣ (0 - 0 * 100)) ∧
      (List.range (totalChunks whiteInput)).flatMap (positions whiteInput) =
        (sampledRowsOf whiteInput).flatMap (rowLines whiteInput) ∧
      List.Sorted (· < ·) (sampledRowsOf whiteInput) :=
  c5_chunk_stream whiteInput ("out") 0 0 rfl (by decide) (by decide)

/-- One scheduled `processChunk` continuation: the generation of the run
that created it, the run inputs its closure captured, and the band index
it will process. -/
structure BandTask where
  gen : ℕ
  p : RenderInput
  k : ℕ

/-- What a band sends to the export sink when it executes: its chunk when
the captured run has a file path (App.tsx lines 167-172), else nothing. -/
def emitOf (t : BandTask) : List String :=
  match t.p.filePath with
  | some _ => [chunkOf t.p t.k]
  | none => []

/-- The continuation a band schedules via `requestAnimationFrame`
(App.tsx lines 174-176): the next band of the same run, unless this band
was the last. -/
def nextTask (t : BandTask) : List BandTask :=
  if t.k < totalChunks t.p - 1 then [{ t with k := t.k + 1 }] else []

/-- The host state: the current run generation (bumped on every fresh
`processImage`), the animation-frame queue of pending band continuations,
the chunks sent to the sink so far, and the accepted grid points drawn so
far. -/
structure Sys where
  cur : ℕ
  queue : List BandTask
  sent : List String
  drawn : List (ℕ × ℕ)

/-- Execute the head of the animation-frame queue.  `processChunk`
(App.tsx lines 124-179) contains no generation or staleness check, so the
band draws, emits and schedules its successor identically whether or not
its generation is still the current one. -/
def stepSys (s : Sys) : Sys :=
  match s.queue with
  | [] => s
  | t :: rest =>
    { cur := s.cur
      queue := rest ++ nextTask t
      sent := s.sent ++ emitOf t
      drawn := s.drawn ++ bandAccepted t.p t.k }

/-- A fresh run: `processImage` ends with a synchronous `processChunk(0)`
(App.tsx line 179) whose successor joins the queue behind any already
pending continuations. -/
def startRun (s : Sys) (g : ℕ) (p : RenderInput) : Sys :=
  { cur := g
    queue := s.queue ++ nextTask { gen := g, p := p, k := 0 }
    sent := s.sent ++ emitOf { gen := g, p := p, k := 0 }
    drawn := s.drawn ++ bandAccepted p 0 }

/-- A configuration change: the effect at App.tsx lines 50-52 reruns
`updateCanvas()` with no argument, so the fresh run starts from band 0
with no export destination bound. -/
def configChange (s : Sys) (p : RenderInput) : Sys :=
  startRun s (s.cur + 1) { p with filePath := none }

/-- Receipt of a save path (App.tsx lines 41-48): a fresh full run with
the export sink bound. -/
def saveRun (s : Sys) (p : RenderInput) : Sys :=
  startRun s (s.cur + 1) p

theorem stepSys_cons (s : Sys) (t : BandTask) (rest : List BandTask)
    (hq : s.queue = t :: rest) :
    stepSys s =
      { cur := s.cur
        queue := rest ++ nextTask t
        sent := s.sent ++ emitOf t
        drawn := s.drawn ++ bandAccepted t.p t.k } := by
  unfold stepSys
  rw [hq]

theorem emitOf_some (t : BandTask) (path : String) (hfp : t.p.filePath = some path) :
    emitOf t = [chunkOf t.p t.k] := by
  unfold emitOf
  rw [hfp]

/-- A 1-column, 200-row, spacing-100 all-white export run: two bands, one
accepted point per band. -/
def runA : RenderInput :=
  { whiteInput with
      drawWidth := 1
      drawHeight := 200
      spacing := 100
      height := 200 }

theorem pointAccept_runA (x y : ℕ) : pointAccept runA x y = true := by
  have h1 : decide (grayAt runA x y > 240) = true := by
    have h : grayAt runA x y = 255 := by
      norm_num [grayAt, getGrayscaleValue, runA, whiteInput, blackInput]
    rw [h]
    exact decide_eq_true (by norm_num)
  unfold pointAccept
  rw [h1]
  have h2 : runA.inversive = false := rfl
  rw [h2]
  simp

theorem lineOf_runA1 : lineOf runA 0 100 = ("0,00 100,00") := by
  rw [lineOf_eq_specLine]
  have h1 : canvasXAt runA 0 100 = 0 := by
    norm_num [canvasXAt, runA, whiteInput, blackInput]
  have h2 : canvasYAt runA 0 100 = 100 := by
    norm_num [canvasYAt, runA, whiteInput, blackInput]
  have hsf : runA.scaleFactor = 1 := rfl
  have hh : runA.height = 200 := rfl
  rw [h1, h2, hsf, hh]
  unfold specLine
  have h3 : jsRound ((0 : ℚ) / 1 * 100) = 0 := by
    norm_num [jsRound]
  have h4 : jsRound (((200 : ℚ) - 100) / 1 * 100) = 10000 := by
    norm_num [jsRound]
  rw [h3, h4]
  decide

theorem bandAccepted_runA1 : bandAccepted runA 1 = [(0, 100)] := by
  have hrows : bandRows runA 1 = [100] := by decide
  have hcols : colVals runA = [0] := by decide
  unfold bandAccepted
  rw [hrows, hcols]
  simp [pointAccept_runA]

theorem positions_runA1 : positions runA 1 = [("0,00 100,00")] := by
  have hrows : bandRows runA 1 = [100] := by decide
  have hcols : colVals runA = [0] := by decide
  unfold positions rowLines
  rw [hrows, hcols]
  simp [pointAccept_runA, lineOf_runA1]

theorem chunkOf_runA1 : chunkOf runA 1 = ("0,00 100,00\n") := by
  unfold chunkOf
  rw [positions_runA1]
  rfl

/-- The export run of `runA` just started (band 0 done, band 1 pending). -/
def sys1 : Sys :=
  saveRun { cur := 0, queue := [], sent := [], drawn := [] } runA

/-- A configuration change arriving while band 1 of generation 1 is still
pending: generation 2 starts from band 0, the stale continuation stays
queued. -/
def sys2 : Sys :=
  configChange sys1 runA

/-- Claim C6 counterexample: after the configuration change the current
generation is 2 while the head of the queue is the stale generation-1 band;
executing it nevertheless emits its chunk to the sink and draws its
accepted point - the stale in-flight band is not suppressed, because
`processChunk` never checks a run generation. -/
theorem c6_counterexample :
    sys2.cur = 2 ∧
      sys2.queue.map BandTask.gen = [1, 2] ∧
      (stepSys sys2).sent = sys2.sent ++ [("0,00 100,00\n")] ∧
      (stepSys sys2).drawn = sys2.drawn ++ [(0, 100)] := by
  refine ⟨rfl, rfl, ?_, ?_⟩
  · have h1 : (stepSys sys2).sent = sys2.sent ++ [chunkOf runA 1] := rfl
    rw [h1, chunkOf_runA1]
  · have h2 : (stepSys sys2).drawn = sys2.drawn ++ bandAccepted runA 1 := rfl
    rw [h2, bandAccepted_runA1]

/-- Claim C6 amended: a configuration change does start a fresh run from
band 0 under a new generation (with no export destination, since the
effect calls `updateCanvas()` without a path), but a stale pending band of
the superseded run is NOT suppressed: when it executes it still emits
exactly its chunk and draws its accepted points, because the band code has
no generation check (the staleness hypothesis below is never used). -/
theorem c6_amended (s : Sys) (p : RenderInput) (t : BandTask) (rest : List BandTask)
    (path : String) (hq : s.queue = t :: rest) (hstale : t.gen ≠ s.cur)
    (hfp : t.p.filePath = some path) :
    (configChange s p).cur = s.cur + 1 ∧
      (configChange s p).queue =
        s.queue ++ nextTask { gen := s.cur + 1, p := { p with filePath := none }, k := 0 } ∧
      (configChange s p).drawn = s.drawn ++ bandAccepted { p with filePath := none } 0 ∧
      (stepSys s).sent = s.sent ++ [chunkOf t.p t.k] ∧
      (stepSys s).drawn = s.drawn ++ bandAccepted t.p t.k := by
  have hstep := stepSys_cons s t rest hq
  refine ⟨rfl, rfl, rfl, ?_, ?_⟩
  · rw [hstep]
    dsimp only
    rw [emitOf_some t path hfp]
  · rw [hstep]

/-- A host state whose current generation is 2 while a generation-1 band
continuation is still queued. -/
def staleSys : Sys where
  cur := 2
  queue := [{ gen := 1, p := runA, k := 1 }]
  sent := []
  drawn := []

/-- Witness for the amended C6 at the concrete stale-band state. -/
theorem c6_amended_witness :
    (configChange staleSys runA).cur = staleSys.cur + 1 ∧
      (configChange staleSys runA).queue =
        staleSys.queue ++
          nextTask { gen := staleSys.cur + 1, p := { runA with filePath := none }, k := 0 } ∧
      (configChange staleSys runA).drawn =
        staleSys.drawn ++ bandAccepted { runA with filePath := none } 0 ∧
      (stepSys staleSys).sent = staleSys.sent ++ [chunkOf runA 1] ∧
      (stepSys staleSys).drawn = staleSys.drawn ++ bandAccepted runA 1 :=
  c6_amended staleSys runA { gen := 1, p := runA, k := 1 } [] ("out") rfl
    (by decide) rfl

/-- The state of the `Painter` component (App.tsx lines 5-16): the loaded
image (opaque handle), the inversion flag, the spacing and threshold
sliders, the pending save path, the viewport dimensions, the export scale
factor, and the canvas pixel surface. -/
structure AppState where
  imageFile : Option ℕ
  inversive : Bool
  spacing : ℕ
  alpha : ℕ
  savePath : Option String
  width : ℕ
  height : ℕ
  scaleFactor : ℚ
  canvas : ℕ → ℕ → Bool

/-- The dependency list of the rerun effect (App.tsx lines 50-52):
`[imageFile, inversive, spacing, alpha, width, height]`.  `scaleFactor` is
not in the list. -/
def effectDeps (s : AppState) : Option ℕ × Bool × ℕ × ℕ × ℕ × ℕ :=
  (s.imageFile, s.inversive, s.spacing, s.alpha, s.width, s.height)

/-- React reruns the effect - triggering a fresh `updateCanvas` run -
exactly when the dependency tuple differs between two renders. -/
def triggersRun (s1 s2 : AppState) : Bool :=
  decide (effectDeps s1 ≠ effectDeps s2)

/-- `context.clearRect(0, 0, width, height)`: blank the rectangle
of the drawing surface below `width` and `height`. -/
def clearRect (w h : ℕ) (canvas : ℕ → ℕ → Bool) : ℕ → ℕ → Bool :=
  fun x y => if x < w ∧ y < h then false else canvas x y

/-- `handleClear` (App.tsx lines 196-205): drop the loaded image and blank
the drawing surface; nothing else is touched. -/
def handleClear (s : AppState) : AppState :=
  { s with imageFile := none, canvas := clearRect s.width s.height s.canvas }

/-- A representative component state with the default slider values. -/
def state0 : AppState where
  imageFile := some 0
  inversive := false
  spacing := 8
  alpha := 128
  savePath := none
  width := 100
  height := 70
  scaleFactor := 1
  canvas := fun _ _ => false

/-- Claim C7 counterexample: changing only the scaleFactor (1 to 2) leaves
the effect dependency tuple unchanged, so no fresh run is triggered -
refuting "a change to any of its fields, including the scaleFactor,
triggers a fresh run". -/
theorem c7_counterexample :
    state0.scaleFactor ≠ ({ state0 with scaleFactor := 2 } : AppState).scaleFactor ∧
      triggersRun state0 { state0 with scaleFactor := 2 } = false := by
  constructor
  · show (1 : ℚ) ≠ 2
    norm_num
  · unfold triggersRun
    exact decide_eq_false (fun h => h rfl)

/-- Claim C7 amended: the run inputs are a per-run snapshot (the pure
`RenderInput` of this development), and a fresh run is triggered exactly
when one of the effect dependencies - imageFile, inversion, spacing,
threshold, viewport width or height - changes; a change to scaleFactor
alone never triggers a fresh run, because scaleFactor is absent from the
effect dependency list. -/
theorem c7_amended (s1 s2 : AppState) (c : ℚ) :
    (triggersRun s1 s2 = true ↔ effectDeps s1 ≠ effectDeps s2) ∧
      triggersRun s1 { s1 with scaleFactor := c } = false := by
  constructor
  · unfold triggersRun
    constructor
    · intro h
      exact of_decide_eq_true h
    · intro h
      exact decide_eq_true h
  · unfold triggersRun
    exact decide_eq_false (fun h => h rfl)

/-- Claim C10: `handleClear` discards the loaded image and blanks the
drawing surface, and leaves every tunable parameter (spacing, threshold,
inversion, scale factor), the viewport dimensions and the pending save
path unchanged. -/
theorem c10_clear_frame (s : AppState) :
    (handleClear s).imageFile = none ∧
      (handleClear s).canvas = clearRect s.width s.height s.canvas ∧
      (handleClear s).spacing = s.spacing ∧
      (handleClear s).alpha = s.alpha ∧
      (handleClear s).inversive = s.inversive ∧
      (handleClear s).scaleFactor = s.scaleFactor ∧
      (handleClear s).width = s.width ∧
      (handleClear s).height = s.height ∧
      (handleClear s).savePath = s.savePath :=
  ⟨rfl, rfl, rfl, rfl, rfl, rfl, rfl, rfl, rfl⟩
